import Mathlib

/-!
Shallow embedding of the falling-shapes game (src/main.js).

The simulation state (the `Game` class fields `width`, `height`, `gravity`,
`spawnPerSecond`, `_lastSpawn`, `shapes`) is modelled over `ℚ`, standing in
for JS numbers on the reachable, exactly-representable values the loop
manipulates.  Shapes carry an `id` standing in for JS object identity
(`indexOf` uses reference equality), their mutable position `x`, `y` and the
precomputed `_area` field.  Geometry (`_estimateArea`, `_drawPolygon`,
`_polygonArea`) is modelled over `ℝ` where the closed forms live, and over
`ℚ` where the claims are purely algebraic.
-/

/-- A falling shape as the game loop tracks it: object identity (`id`),
position fields `x`, `y` and the ad-hoc `_area` field. -/
structure Shape where
  id : ℕ
  x : ℚ
  y : ℚ
  area : ℚ
  deriving DecidableEq, Repr

instance : Inhabited Shape := ⟨⟨0, 0, 0, 0⟩⟩

/-- The mutable state of the `Game` singleton. -/
structure GameState where
  width : ℚ
  height : ℚ
  gravity : ℚ
  spawnPerSecond : ℚ
  lastSpawn : ℚ
  shapes : List Shape
  deriving DecidableEq, Repr

/-- `const SPAWN_STEP = 1`. -/
def SPAWN_STEP : ℚ := 1

/-- `const GRAVITY_STEP = 1`. -/
def GRAVITY_STEP : ℚ := 1

/-- The `spawn-inc` button: `this.spawnPerSecond += SPAWN_STEP`. -/
def spawnInc (st : GameState) : GameState :=
  { st with spawnPerSecond := st.spawnPerSecond + SPAWN_STEP }

/-- The `spawn-dec` button: `this.spawnPerSecond = Math.max(0, this.spawnPerSecond - SPAWN_STEP)`. -/
def spawnDec (st : GameState) : GameState :=
  { st with spawnPerSecond := max 0 (st.spawnPerSecond - SPAWN_STEP) }

/-- The `grav-inc` button: `this.gravity += GRAVITY_STEP`. -/
def gravInc (st : GameState) : GameState :=
  { st with gravity := st.gravity + GRAVITY_STEP }

/-- The `grav-dec` button: `this.gravity = Math.max(0, this.gravity - GRAVITY_STEP)`. -/
def gravDec (st : GameState) : GameState :=
  { st with gravity := max 0 (st.gravity - GRAVITY_STEP) }

/-- Modelled from the spec: `setGravity(v)`: clamp to `≥ 0`, update config.
No function of this name exists in src/main.js (the code only wires the
inc/dec buttons); the spec describes this setter for the control layer. -/
def setGravity (st : GameState) (v : ℚ) : GameState :=
  { st with gravity := max 0 v }

/-- Modelled from the spec: `setSpawnRate(v)`: clamp to `≥ 0`, update config.
No function of this name exists in src/main.js; see `setGravity`. -/
def setSpawnRate (st : GameState) (v : ℚ) : GameState :=
  { st with spawnPerSecond := max 0 v }

/-- `_removeShape(shape)`: `indexOf` + `splice(idx, 1)` removes the first
occurrence of the shape if present, otherwise leaves the array unchanged. -/
def removeShape (st : GameState) (sh : Shape) : GameState :=
  { st with shapes := st.shapes.erase sh }

/-- `_resetGame()`: `this.shapes = []; this._lastSpawn = 0` (after destroying
every live shape's renderer resource). -/
def resetGame (st : GameState) : GameState :=
  { st with shapes := [], lastSpawn := 0 }

/-- Stats: `this.shapes.length`. -/
def shapeCount (st : GameState) : ℕ := st.shapes.length

/-- Stats: `this.shapes.reduce((sum, s) => sum + (s._area||0), 0)`. -/
def totalArea (st : GameState) : ℚ :=
  (st.shapes.map Shape.area).sum

/-- `1000 / (this.spawnPerSecond || 1)`: in JS, `0` is falsy, every other
number is itself taken as the divisor. -/
def spawnInterval (s : ℚ) : ℚ :=
  1000 / (if s = 0 then 1 else s)

/-- Lines 118-125 of `_update`: if the wall-clock time since `_lastSpawn`
has reached the interval, reset the spawn clock, and, when
`spawnPerSecond > 0`, push one factory shape at `(randX, -50)`.
`now`, the random x and the factory draw (`newId`, `newArea`) are the
tick's nondeterministic inputs, passed as parameters. -/
def spawnStep (st : GameState) (now : ℚ) (newId : ℕ) (randX newArea : ℚ) : GameState :=
  if spawnInterval st.spawnPerSecond ≤ now - st.lastSpawn then
    { st with
      lastSpawn := now
      shapes :=
        if 0 < st.spawnPerSecond then
          st.shapes ++ [{ id := newId, x := randX, y := -50, area := newArea }]
        else st.shapes }
  else st

/-- Line 128 of `_update`: `this.shapes.forEach(shape => shape.y += this.gravity * delta)`. -/
def applyGravity (gravity delta : ℚ) (shapes : List Shape) : List Shape :=
  shapes.map fun s => { s with y := s.y + gravity * delta }

/-- Lines 131-137 of `_update`: keep exactly the shapes with
`¬(shape.y > this.height + 100)`; the rest are destroyed and dropped. -/
def cullStep (height : ℚ) (shapes : List Shape) : List Shape :=
  shapes.filter fun s => !decide (height + 100 < s.y)

/-- `_update(delta)`: spawn-on-timer, then gravity, then the off-screen cull
(stats are recomputed from the resulting state by `shapeCount`/`totalArea`). -/
def update (st : GameState) (delta now : ℚ) (newId : ℕ) (randX newArea : ℚ) : GameState :=
  let st1 := spawnStep st now newId randX newArea
  { st1 with shapes := cullStep st1.height (applyGravity st1.gravity delta st1.shapes) }

/-- `_estimateArea(type, size)`: the per-kind closed forms of the source
(type 0 triangle, 1 square, 2 pentagon, 3 hexagon, 4 circle, 5 ellipse,
6 star, default `size**2`). -/
noncomputable def estimateArea (type : ℕ) (size : ℝ) : ℝ :=
  match type with
  | 0 => Real.sqrt 3 / 4 * size ^ 2
  | 1 => size ^ 2
  | 2 => 5 / 4 * size ^ 2 * Real.tan (Real.pi / 5)
  | 3 => 3 * Real.sqrt 3 / 2 * size ^ 2
  | 4 => Real.pi * size ^ 2
  | 5 => Real.pi * size * (size / 2)
  | 6 => 5 / 2 * size ^ 2 * Real.sin (2 * Real.pi / 5)
  | _ => size ^ 2

/-- The closed forms exactly as the spec words them, kind by kind:
triangle `(√3/4)·size²`, square `size²`, pentagon `(5/4)·size²·tan(π/5)`,
hexagon `(3√3/2)·size²`, circle `π·size²`, ellipse `π·size·(size/2)`,
star `(5/2)·size²·sin(2π/5)`.  Kept separate from `estimateArea` so the
two can be compared. -/
noncomputable def specClosedFormArea (type : ℕ) (size : ℝ) : ℝ :=
  match type with
  | 0 => Real.sqrt 3 / 4 * size ^ 2
  | 1 => size ^ 2
  | 2 => 5 / 4 * size ^ 2 * Real.tan (Real.pi / 5)
  | 3 => 3 * Real.sqrt 3 / 2 * size ^ 2
  | 4 => Real.pi * size ^ 2
  | 5 => Real.pi * size * (size / 2)
  | 6 => 5 / 2 * size ^ 2 * Real.sin (2 * Real.pi / 5)
  | _ => size ^ 2

/-- The point sequence `_drawPolygon(g, radius, sides)` feeds the renderer:
`moveTo(radius, 0)` followed by `lineTo(radius·cos(i·step), radius·sin(i·step))`
for `i = 1 .. sides`, with `step = 2π/sides`.  Note the path has `sides + 1`
entries, the last of which closes the ring back onto the first. -/
noncomputable def drawPolygonPath (radius : ℝ) (sides : ℕ) : List (ℝ × ℝ) :=
  (radius, 0) ::
    (List.range sides).map fun k : ℕ =>
      (radius * Real.cos (((k : ℝ) + 1) * (2 * Real.pi / (sides : ℝ))),
       radius * Real.sin (((k : ℝ) + 1) * (2 * Real.pi / (sides : ℝ))))

/-- The vertex ring the path traces: one vertex per side, vertex `i` at
angle `i·(2π/sides)`; `drawPolygonPath` is this ring plus the closing
repeat of vertex 0 (see `drawPolygonPath_eq_ring`). -/
noncomputable def polygonRing (radius : ℝ) (sides : ℕ) : List (ℝ × ℝ) :=
  (List.range sides).map fun i : ℕ =>
    (radius * Real.cos ((i : ℝ) * (2 * Real.pi / (sides : ℝ))),
     radius * Real.sin ((i : ℝ) * (2 * Real.pi / (sides : ℝ))))

/-- Euclidean distance of a point from the shape's center (the origin:
shapes are drawn centered at `(0, 0)` and positioned afterwards). -/
noncomputable def euclidDist (p : ℝ × ℝ) : ℝ :=
  Real.sqrt (p.1 ^ 2 + p.2 ^ 2)

/-- `_polygonArea(points)` on the flat coordinate array
`[x0, y0, x1, y1, ...]`: the loop runs `i = 0, 2, 4, ...` while
`i < points.length` and accumulates
`points[i]·points[(i+3)%len] − points[(i+2)%len]·points[i+1]`,
returning `Math.abs(area / 2)`.  Out-of-range reads cannot occur on
even-length arrays (every index used is reduced mod the length or at
most one past an even loop index). -/
def polygonArea (points : List ℚ) : ℚ :=
  |((Finset.range ((points.length + 1) / 2)).sum fun j =>
      points.getD (2 * j) 0 * points.getD ((2 * j + 3) % points.length) 0
        - points.getD ((2 * j + 2) % points.length) 0 * points.getD (2 * j + 1) 0) / 2|

/-- The flat coordinate array built by `_createIrregularShape`:
`points.push(x, y)` per vertex, so a vertex list becomes
`[x0, y0, x1, y1, ...]`. -/
def flattenPoints : List (ℚ × ℚ) → List ℚ
  | [] => []
  | p :: ps => p.1 :: p.2 :: flattenPoints ps

/-- The cross term of the shoelace formula: `x1·y2 − x2·y1`. -/
def cross (a b : ℚ × ℚ) : ℚ := a.1 * b.2 - b.1 * a.2

/-- The shoelace sum over the vertex ring: cross terms of consecutive
(wraparound) vertex pairs; `_polygonArea` computes half its absolute
value (see `polygonArea_flatten`). -/
def shoelaceSum (vs : List (ℚ × ℚ)) : ℚ :=
  (Finset.range vs.length).sum fun j =>
    cross (vs.getD j (0, 0)) (vs.getD ((j + 1) % vs.length) (0, 0))

/-- A concrete state used to instantiate the hypothesis-bearing theorems:
an 800×600 screen with the constructor defaults `gravity = 1`,
`spawnPerSecond = 1`, `_lastSpawn = 0` and one live shape. -/
def st0 : GameState :=
  { width := 800, height := 600, gravity := 1, spawnPerSecond := 1,
    lastSpawn := 0, shapes := [{ id := 7, x := 40, y := 10, area := 900 }] }

/-- A state whose `spawnPerSecond` is the non-integer value 1/2 (reachable
through the constructor option `opts.spawnPerSecond`). -/
def stHalf : GameState :=
  { width := 800, height := 600, gravity := 1, spawnPerSecond := 1 / 2,
    lastSpawn := 0, shapes := [] }

theorem spawnStep_height (st : GameState) (now : ℚ) (newId : ℕ) (randX newArea : ℚ) :
    (spawnStep st now newId randX newArea).height = st.height := by
  unfold spawnStep; split <;> rfl

theorem spawnStep_stats (st : GameState) (now : ℚ) (newId : ℕ) (randX newArea : ℚ) :
    (spawnStep st now newId randX newArea).gravity = st.gravity ∧
      (spawnStep st now newId randX newArea).spawnPerSecond = st.spawnPerSecond := by
  unfold spawnStep; split <;> exact ⟨rfl, rfl⟩

/-- C8: `reset` empties the shape collection, resets the spawn clock to its
initial value 0 (the constructor sets `_lastSpawn = 0`), and the recomputed
stats are `count = 0` and `totalArea = 0`, for every prior state. -/
theorem resetGame_spec (st : GameState) :
    (resetGame st).shapes = [] ∧ (resetGame st).lastSpawn = 0 ∧
      shapeCount (resetGame st) = 0 ∧ totalArea (resetGame st) = 0 := by
  exact ⟨rfl, rfl, rfl, rfl⟩

/-- C9: the per-tick motion step increments every live shape's `y` by exactly
`gravity · deltaTime` and leaves `x` (and the rest of the shape) unchanged. -/
theorem applyGravity_spec (gravity delta : ℚ) (shapes : List Shape) (i : ℕ)
    (h : i < shapes.length) :
    (applyGravity gravity delta shapes).length = shapes.length ∧
    ((applyGravity gravity delta shapes).getD i default).y
        = (shapes.getD i default).y + gravity * delta ∧
    ((applyGravity gravity delta shapes).getD i default).x
        = (shapes.getD i default).x ∧
    ((applyGravity gravity delta shapes).getD i default).id
        = (shapes.getD i default).id := by
  have hlen : (applyGravity gravity delta shapes).length = shapes.length := by
    simp [applyGravity]
  have hi : i < (applyGravity gravity delta shapes).length := by omega
  refine ⟨hlen, ?_, ?_, ?_⟩ <;>
    · rw [List.getD_eq_getElem _ _ hi, List.getD_eq_getElem _ _ h]
      simp [applyGravity]

/-- Witness for C9 at a concrete input. -/
theorem applyGravity_spec_witness :
    0 < st0.shapes.length ∧
    ((applyGravity 1 2 st0.shapes).length = st0.shapes.length ∧
      ((applyGravity 1 2 st0.shapes).getD 0 default).y
          = (st0.shapes.getD 0 default).y + 1 * 2 ∧
      ((applyGravity 1 2 st0.shapes).getD 0 default).x
          = (st0.shapes.getD 0 default).x ∧
      ((applyGravity 1 2 st0.shapes).getD 0 default).id
          = (st0.shapes.getD 0 default).id) :=
  ⟨by decide, applyGravity_spec 1 2 st0.shapes 0 (by decide)⟩

/-- C6: the decrease buttons clamp `spawnPerSecond`/`gravity` at a floor of
0, the increase buttons add exactly 1, neither setting ever becomes negative
from a nonnegative state, and the spec's `setGravity` stores 0 for input -5
and then 3 for input 3. -/
theorem controls_clamp_spec (st : GameState)
    (hg : 0 ≤ st.gravity) (hs : 0 ≤ st.spawnPerSecond) :
    (spawnDec st).spawnPerSecond = max 0 (st.spawnPerSecond - 1) ∧
    (gravDec st).gravity = max 0 (st.gravity - 1) ∧
    0 ≤ (spawnDec st).spawnPerSecond ∧
    0 ≤ (gravDec st).gravity ∧
    0 ≤ (spawnInc st).spawnPerSecond ∧
    0 ≤ (gravInc st).gravity ∧
    (spawnInc st).spawnPerSecond = st.spawnPerSecond + 1 ∧
    (gravInc st).gravity = st.gravity + 1 ∧
    (setGravity st (-5)).gravity = 0 ∧
    (setGravity (setGravity st (-5)) 3).gravity = 3 := by
  refine ⟨rfl, rfl, le_max_left _ _, le_max_left _ _, ?_, ?_, rfl, rfl, ?_, ?_⟩
  · have : (spawnInc st).spawnPerSecond = st.spawnPerSecond + 1 := rfl
    rw [this]; linarith
  · have : (gravInc st).gravity = st.gravity + 1 := rfl
    rw [this]; linarith
  · show max 0 (-5 : ℚ) = 0
    norm_num
  · show max 0 (3 : ℚ) = 3
    norm_num

/-- Witness for C6 at a concrete input. -/
theorem controls_clamp_spec_witness :
    (0 ≤ st0.gravity ∧ 0 ≤ st0.spawnPerSecond) ∧
    ((spawnDec st0).spawnPerSecond = max 0 (st0.spawnPerSecond - 1) ∧
      (gravDec st0).gravity = max 0 (st0.gravity - 1) ∧
      0 ≤ (spawnDec st0).spawnPerSecond ∧
      0 ≤ (gravDec st0).gravity ∧
      0 ≤ (spawnInc st0).spawnPerSecond ∧
      0 ≤ (gravInc st0).gravity ∧
      (spawnInc st0).spawnPerSecond = st0.spawnPerSecond + 1 ∧
      (gravInc st0).gravity = st0.gravity + 1 ∧
      (setGravity st0 (-5)).gravity = 0 ∧
      (setGravity (setGravity st0 (-5)) 3).gravity = 3) :=
  ⟨⟨by decide, by decide⟩, controls_clamp_spec st0 (by decide) (by decide)⟩

/-- C7: removing a present shape deletes exactly that shape (the list
shrinks by exactly one, the removed shape's multiplicity drops by one and
every other shape's multiplicity is untouched), while removing an absent
shape is a silent no-op leaving the state unchanged. -/
theorem removeShape_spec (st : GameState) (sh : Shape) :
    (sh ∈ st.shapes →
      (removeShape st sh).shapes.length + 1 = st.shapes.length ∧
      (removeShape st sh).shapes.count sh + 1 = st.shapes.count sh) ∧
    (∀ t : Shape, t ≠ sh → (removeShape st sh).shapes.count t = st.shapes.count t) ∧
    (sh ∉ st.shapes → removeShape st sh = st) := by
  refine ⟨?_, ?_, ?_⟩
  · intro hmem
    have hpos : 0 < st.shapes.length := List.length_pos.mpr (List.ne_nil_of_mem hmem)
    have hcnt : 0 < st.shapes.count sh := List.count_pos_iff.mpr hmem
    constructor
    · have := List.length_erase_of_mem hmem
      show (st.shapes.erase sh).length + 1 = st.shapes.length
      omega
    · have := List.count_erase_self sh st.shapes
      show (st.shapes.erase sh).count sh + 1 = st.shapes.count sh
      omega
  · intro t ht
    show (st.shapes.erase sh).count t = st.shapes.count t
    exact List.count_erase_of_ne ht st.shapes
  · intro hnot
    show { st with shapes := st.shapes.erase sh } = st
    rw [List.erase_of_not_mem hnot]

/-- Witness for C7 at a concrete input. -/
theorem removeShape_spec_witness :
    ((({ id := 7, x := 40, y := 10, area := 900 } : Shape) ∈ st0.shapes →
      (removeShape st0 { id := 7, x := 40, y := 10, area := 900 }).shapes.length + 1
          = st0.shapes.length ∧
      (removeShape st0 { id := 7, x := 40, y := 10, area := 900 }).shapes.count
            { id := 7, x := 40, y := 10, area := 900 } + 1
          = st0.shapes.count { id := 7, x := 40, y := 10, area := 900 }) ∧
    (∀ t : Shape, t ≠ { id := 7, x := 40, y := 10, area := 900 } →
      (removeShape st0 { id := 7, x := 40, y := 10, area := 900 }).shapes.count t
          = st0.shapes.count t) ∧
    (({ id := 7, x := 40, y := 10, area := 900 } : Shape) ∉ st0.shapes →
      removeShape st0 { id := 7, x := 40, y := 10, area := 900 } = st0)) :=
  removeShape_spec st0 { id := 7, x := 40, y := 10, area := 900 }

/-- C10: removals keep survivors in their original relative order: the
tick's cull leaves a sublist (order-preserving selection) of the moved
collection, and `removeShape` deletes at most the first occurrence of the
given shape, leaving the surviving shapes as the original list with that
one occurrence cut out (hence in their original order). -/
theorem cull_and_remove_preserve_order (st : GameState) (delta now : ℚ)
    (newId : ℕ) (randX newArea : ℚ) (sh : Shape) :
    (update st delta now newId randX newArea).shapes.Sublist
        (applyGravity (spawnStep st now newId randX newArea).gravity delta
          (spawnStep st now newId randX newArea).shapes) ∧
    (removeShape st sh).shapes.Sublist st.shapes ∧
    (sh ∈ st.shapes → ∃ l1 l2, sh ∉ l1 ∧ st.shapes = l1 ++ sh :: l2 ∧
        (removeShape st sh).shapes = l1 ++ l2) := by
  refine ⟨?_, List.erase_sublist _ _, ?_⟩
  · show (cullStep _ _).Sublist _
    exact List.filter_sublist _
  · intro hmem
    obtain ⟨l1, l2, h1, h2, h3⟩ := List.exists_erase_eq hmem
    exact ⟨l1, l2, h1, h2, h3⟩

/-- Witness for C10 at a concrete input. -/
theorem cull_and_remove_preserve_order_witness :
    (update st0 1 2000 9 100 400).shapes.Sublist
        (applyGravity (spawnStep st0 2000 9 100 400).gravity 1
          (spawnStep st0 2000 9 100 400).shapes) ∧
    (removeShape st0 { id := 7, x := 40, y := 10, area := 900 }).shapes.Sublist st0.shapes ∧
    (({ id := 7, x := 40, y := 10, area := 900 } : Shape) ∈ st0.shapes →
      ∃ l1 l2, ({ id := 7, x := 40, y := 10, area := 900 } : Shape) ∉ l1 ∧
        st0.shapes = l1 ++ { id := 7, x := 40, y := 10, area := 900 } :: l2 ∧
        (removeShape st0 { id := 7, x := 40, y := 10, area := 900 }).shapes = l1 ++ l2) :=
  cull_and_remove_preserve_order st0 1 2000 9 100 400
    { id := 7, x := 40, y := 10, area := 900 }

/-- C2: after a tick, every surviving shape satisfies
`y ≤ screenHeight + 100`, and every shape whose `y` exceeds that margin
after the gravity step is dropped from the state in that same tick. -/
theorem tick_culls_offscreen (st : GameState) (delta now : ℚ) (newId : ℕ)
    (randX newArea : ℚ) :
    (∀ sh ∈ (update st delta now newId randX newArea).shapes,
        sh.y ≤ st.height + 100) ∧
    (∀ sh ∈ applyGravity (spawnStep st now newId randX newArea).gravity delta
          (spawnStep st now newId randX newArea).shapes,
        st.height + 100 < sh.y →
          sh ∉ (update st delta now newId randX newArea).shapes) := by
  have hh := spawnStep_height st now newId randX newArea
  constructor
  · intro sh hmem
    have : sh ∈ cullStep (spawnStep st now newId randX newArea).height
        (applyGravity (spawnStep st now newId randX newArea).gravity delta
          (spawnStep st now newId randX newArea).shapes) := hmem
    rw [cullStep, List.mem_filter] at this
    have := this.2
    simp only [Bool.not_eq_eq_eq_not, Bool.not_true, decide_eq_false_iff_not, not_lt] at this
    rw [hh] at this
    exact this
  · intro sh _ hy hmem
    have : sh ∈ cullStep (spawnStep st now newId randX newArea).height
        (applyGravity (spawnStep st now newId randX newArea).gravity delta
          (spawnStep st now newId randX newArea).shapes) := hmem
    rw [cullStep, List.mem_filter] at this
    have := this.2
    simp only [Bool.not_eq_eq_eq_not, Bool.not_true, decide_eq_false_iff_not, not_lt] at this
    rw [hh] at this
    exact absurd hy (not_lt.mpr this)

/-- Witness for C2 at a concrete input (one on-screen survivor, one culled
shape): the surviving shape is within the margin. -/
theorem tick_culls_offscreen_witness :
    (∀ sh ∈ (update st0 1 2000 9 100 400).shapes, sh.y ≤ st0.height + 100) ∧
    (∀ sh ∈ applyGravity (spawnStep st0 2000 9 100 400).gravity 1
          (spawnStep st0 2000 9 100 400).shapes,
        st0.height + 100 < sh.y →
          sh ∉ (update st0 1 2000 9 100 400).shapes) :=
  tick_culls_offscreen st0 1 2000 9 100 400

/-- C3 (amended): for `spawnPerSecond` equal to 0 or at least 1, the spawn
interval equals `1000 / max(spawnPerSecond, 1)`; when the elapsed wall-clock
time since the last spawn reaches the interval, the spawn clock is reset to
`now`, and a shape is appended if and only if `spawnPerSecond > 0` (with
`spawnPerSecond = 0` the clock still resets but the collection is
unchanged). -/
theorem spawn_timer_spec (st : GameState) (now : ℚ) (newId : ℕ) (randX newArea : ℚ)
    (hs : st.spawnPerSecond = 0 ∨ 1 ≤ st.spawnPerSecond) :
    spawnInterval st.spawnPerSecond = 1000 / max st.spawnPerSecond 1 ∧
    (spawnInterval st.spawnPerSecond ≤ now - st.lastSpawn →
      (spawnStep st now newId randX newArea).lastSpawn = now ∧
      ((spawnStep st now newId randX newArea).shapes
          = st.shapes ++ [{ id := newId, x := randX, y := -50, area := newArea }]
        ↔ 0 < st.spawnPerSecond) ∧
      (st.spawnPerSecond = 0 →
        (spawnStep st now newId randX newArea).shapes = st.shapes)) := by
  constructor
  · rcases hs with h0 | h1
    · rw [spawnInterval, if_pos h0, h0]
      norm_num
    · rw [spawnInterval, if_neg (by linarith), max_eq_left h1]
  · intro helap
    rw [spawnStep, if_pos helap]
    refine ⟨rfl, ?_, ?_⟩
    · constructor
      · intro heq
        by_contra hpos
        rw [if_neg hpos] at heq
        have := congrArg List.length heq
        simp at this
      · intro hpos
        rw [if_pos hpos]
    · intro h0
      rw [if_neg (by rw [h0]; exact lt_irrefl 0)]

/-- Witness for C3 at a concrete input (`spawnPerSecond = 1`, elapsed 2000). -/
theorem spawn_timer_spec_witness :
    (st0.spawnPerSecond = 0 ∨ 1 ≤ st0.spawnPerSecond) ∧
    (spawnInterval st0.spawnPerSecond = 1000 / max st0.spawnPerSecond 1 ∧
      (spawnInterval st0.spawnPerSecond ≤ 2000 - st0.lastSpawn →
        (spawnStep st0 2000 9 100 400).lastSpawn = 2000 ∧
        ((spawnStep st0 2000 9 100 400).shapes
            = st0.shapes ++ [{ id := 9, x := 100, y := -50, area := 400 }]
          ↔ 0 < st0.spawnPerSecond) ∧
        (st0.spawnPerSecond = 0 →
          (spawnStep st0 2000 9 100 400).shapes = st0.shapes))) :=
  ⟨Or.inr (by decide), spawn_timer_spec st0 2000 9 100 400 (Or.inr (by decide))⟩

/-- Counterexample to C3 as stated: at `spawnPerSecond = 1/2` (a value `≥ 0`
reachable through the constructor options) the code computes the interval
`1000 / (spawnPerSecond || 1) = 2000`, not `1000 / max(spawnPerSecond, 1)
= 1000`; consequently with elapsed time 1500 (which reaches the claimed
interval) the tick neither resets the spawn clock nor spawns. -/
theorem spawn_interval_claim_cex :
    0 ≤ stHalf.spawnPerSecond ∧
    spawnInterval stHalf.spawnPerSecond = 2000 ∧
    1000 / max stHalf.spawnPerSecond 1 = 1000 ∧
    spawnInterval stHalf.spawnPerSecond ≠ 1000 / max stHalf.spawnPerSecond 1 ∧
    1000 / max stHalf.spawnPerSecond 1 ≤ 1500 - stHalf.lastSpawn ∧
    0 < stHalf.spawnPerSecond ∧
    (update stHalf 1 1500 9 100 400).lastSpawn = stHalf.lastSpawn ∧
    (update stHalf 1 1500 9 100 400).shapes = [] := by
  refine ⟨by norm_num [stHalf], ?_, by norm_num [stHalf], ?_, by norm_num [stHalf],
    by norm_num [stHalf], ?_, ?_⟩
  · show (1000 : ℚ) / (if (1 : ℚ)/2 = 0 then 1 else (1 : ℚ)/2) = 2000
    norm_num
  · show (1000 : ℚ) / (if (1 : ℚ)/2 = 0 then 1 else (1 : ℚ)/2) ≠ 1000 / max ((1:ℚ)/2) 1
    norm_num
  · show (spawnStep stHalf 1500 9 100 400).lastSpawn = stHalf.lastSpawn
    rw [spawnStep, if_neg]
    show ¬ ((1000 : ℚ) / (if (1 : ℚ)/2 = 0 then 1 else (1 : ℚ)/2) ≤ 1500 - 0)
    norm_num
  · show cullStep _ (applyGravity _ 1 (spawnStep stHalf 1500 9 100 400).shapes) = []
    rw [spawnStep, if_neg]
    · rfl
    show ¬ ((1000 : ℚ) / (if (1 : ℚ)/2 = 0 then 1 else (1 : ℚ)/2) ≤ 1500 - 0)
    norm_num

/-- C1: for every kind `createRandomShape` can choose (types 0-6) and every
size, `_estimateArea` returns exactly the spec's closed form for that kind;
in particular a square (type 1) of size 30 has area 900 and a circle
(type 4) of size 20 has area `π·400`. -/
theorem estimateArea_matches_closed_forms (size : ℝ) :
    estimateArea 0 size = specClosedFormArea 0 size ∧
    estimateArea 1 size = specClosedFormArea 1 size ∧
    estimateArea 2 size = specClosedFormArea 2 size ∧
    estimateArea 3 size = specClosedFormArea 3 size ∧
    estimateArea 4 size = specClosedFormArea 4 size ∧
    estimateArea 5 size = specClosedFormArea 5 size ∧
    estimateArea 6 size = specClosedFormArea 6 size ∧
    estimateArea 1 30 = 900 ∧
    estimateArea 4 20 = Real.pi * 400 := by
  refine ⟨rfl, rfl, rfl, rfl, rfl, rfl, rfl, ?_, ?_⟩
  · show (30 : ℝ) ^ 2 = 900
    norm_num
  · show Real.pi * 20 ^ 2 = Real.pi * 400
    norm_num

theorem polygonRing_succ_expand (radius : ℝ) (m : ℕ) :
    polygonRing radius (m + 1)
      = (radius, 0) :: (List.range m).map (fun k : ℕ =>
          (radius * Real.cos (((k : ℝ) + 1) * (2 * Real.pi / ((m : ℝ) + 1))),
           radius * Real.sin (((k : ℝ) + 1) * (2 * Real.pi / ((m : ℝ) + 1))))) := by
  unfold polygonRing
  rw [List.range_succ_eq_map, List.map_cons, List.map_map]
  congr 1
  · norm_num
  · apply List.map_congr_left
    intro k _
    simp only [Function.comp_apply, Nat.succ_eq_add_one]
    push_cast
    ring_nf

theorem drawPolygonPath_succ_expand (radius : ℝ) (m : ℕ) :
    drawPolygonPath radius (m + 1)
      = (radius, 0) :: ((List.range m).map (fun k : ℕ =>
          (radius * Real.cos (((k : ℝ) + 1) * (2 * Real.pi / ((m : ℝ) + 1))),
           radius * Real.sin (((k : ℝ) + 1) * (2 * Real.pi / ((m : ℝ) + 1))))) ++ [(radius, 0)]) := by
  have hne : ((m : ℝ) + 1) ≠ 0 := by positivity
  unfold drawPolygonPath
  rw [List.range_succ, List.map_append]
  congr 1
  congr 1
  · apply List.map_congr_left
    intro k _
    push_cast
    ring_nf
  · simp only [List.map_cons, List.map_nil]
    have hangle : ((m : ℝ) + 1) * (2 * Real.pi / ((m : ℝ) + 1)) = 2 * Real.pi := by
      rw [mul_comm]
      exact div_mul_cancel₀ _ hne
    push_cast
    rw [hangle, Real.cos_two_pi, Real.sin_two_pi, mul_one, mul_zero]

/-- The path `_drawPolygon` traces is the `sides`-point vertex ring followed
by the closing repeat of vertex 0. -/
theorem drawPolygonPath_eq_ring (radius : ℝ) (sides : ℕ) (h : 1 ≤ sides) :
    drawPolygonPath radius sides = polygonRing radius sides ++ [(radius, 0)] := by
  obtain ⟨m, rfl⟩ : ∃ m, sides = m + 1 := ⟨sides - 1, by omega⟩
  rw [drawPolygonPath_succ_expand, polygonRing_succ_expand, List.cons_append]

theorem polygonRing_getD (radius : ℝ) (sides i : ℕ) (h : i < sides) :
    (polygonRing radius sides).getD i (0, 0)
      = (radius * Real.cos (i * (2 * Real.pi / sides)),
         radius * Real.sin (i * (2 * Real.pi / sides))) := by
  have hlen : i < (polygonRing radius sides).length := by
    simpa [polygonRing] using h
  rw [List.getD_eq_getElem _ _ hlen]
  simp [polygonRing]

theorem polygonRing_dist (radius : ℝ) (sides : ℕ) (hr : 0 ≤ radius) :
    ∀ p ∈ polygonRing radius sides, euclidDist p = radius := by
  intro p hp
  simp only [polygonRing, List.mem_map, List.mem_range] at hp
  obtain ⟨i, -, rfl⟩ := hp
  unfold euclidDist
  have hsum : (radius * Real.cos (i * (2 * Real.pi / sides))) ^ 2
      + (radius * Real.sin (i * (2 * Real.pi / sides))) ^ 2 = radius ^ 2 := by
    have h1 := Real.cos_sq_add_sin_sq ((i : ℝ) * (2 * Real.pi / sides))
    have h2 : (radius * Real.cos ((i : ℝ) * (2 * Real.pi / sides))) ^ 2
        + (radius * Real.sin ((i : ℝ) * (2 * Real.pi / sides))) ^ 2
        = radius ^ 2 * (Real.cos ((i : ℝ) * (2 * Real.pi / sides)) ^ 2
            + Real.sin ((i : ℝ) * (2 * Real.pi / sides)) ^ 2) := by ring
    rw [h2, h1, mul_one]
  show Real.sqrt (_ ^ 2 + _ ^ 2) = radius
  rw [hsum, Real.sqrt_sq hr]

/-- C5: for each regular-polygon kind (3, 4, 5 or 6 sides) and every
nonnegative size, `_drawPolygon` traces a vertex ring of exactly `sides`
points (the path closes back onto vertex 0), vertex `i` sitting at angle
`i·(2π/sides)` (evenly spaced, starting at angle 0), each point at
Euclidean distance `size` from the center, with vertex 0 at `(size, 0)`. -/
theorem drawPolygon_ring_spec (size : ℝ) (sides : ℕ) (hsize : 0 ≤ size)
    (hsides : sides = 3 ∨ sides = 4 ∨ sides = 5 ∨ sides = 6) :
    (polygonRing size sides).length = sides ∧
    drawPolygonPath size sides = polygonRing size sides ++ [(size, 0)] ∧
    (∀ i, i < sides → (polygonRing size sides).getD i (0, 0)
        = (size * Real.cos (i * (2 * Real.pi / sides)),
           size * Real.sin (i * (2 * Real.pi / sides)))) ∧
    (∀ p ∈ polygonRing size sides, euclidDist p = size) ∧
    (polygonRing size sides).getD 0 (0, 0) = (size, 0) := by
  have h1 : 1 ≤ sides := by rcases hsides with h | h | h | h <;> omega
  refine ⟨by simp [polygonRing], drawPolygonPath_eq_ring size sides h1,
    fun i hi => polygonRing_getD size sides i hi,
    polygonRing_dist size sides hsize, ?_⟩
  rw [polygonRing_getD size sides 0 (by omega)]
  norm_num

/-- Witness for C5 at size 2 with 3 sides. -/
theorem drawPolygon_ring_spec_witness :
    ((0 : ℝ) ≤ 2 ∧ (3 = 3 ∨ 3 = 4 ∨ 3 = 5 ∨ 3 = 6)) ∧
    ((polygonRing 2 3).length = 3 ∧
      drawPolygonPath 2 3 = polygonRing 2 3 ++ [((2 : ℝ), 0)] ∧
      (∀ i, i < 3 → (polygonRing 2 3).getD i (0, 0)
          = (2 * Real.cos (i * (2 * Real.pi / 3)),
             2 * Real.sin (i * (2 * Real.pi / 3)))) ∧
      (∀ p ∈ polygonRing 2 3, euclidDist p = 2) ∧
      (polygonRing (2 : ℝ) 3).getD 0 (0, 0) = (2, 0)) := by
  have h := drawPolygon_ring_spec 2 3 (by norm_num) (Or.inl rfl)
  push_cast at h
  exact ⟨⟨by norm_num, Or.inl rfl⟩, h⟩

theorem flattenPoints_length (vs : List (ℚ × ℚ)) :
    (flattenPoints vs).length = 2 * vs.length := by
  induction vs with
  | nil => rfl
  | cons p ps ih =>
    simp only [flattenPoints, List.length_cons, ih]
    omega

theorem flattenPoints_getD_fst : ∀ (vs : List (ℚ × ℚ)) (j : ℕ), j < vs.length →
    (flattenPoints vs).getD (2 * j) 0 = (vs.getD j (0, 0)).1
  | [], _, h => by simp at h
  | p :: ps, 0, _ => by simp [flattenPoints]
  | p :: ps, j + 1, h => by
    have h2 : 2 * (j + 1) = 2 * j + 1 + 1 := by omega
    rw [h2]
    simp only [flattenPoints, List.getD_cons_succ]
    exact flattenPoints_getD_fst ps j (by simpa using h)

theorem flattenPoints_getD_snd : ∀ (vs : List (ℚ × ℚ)) (j : ℕ), j < vs.length →
    (flattenPoints vs).getD (2 * j + 1) 0 = (vs.getD j (0, 0)).2
  | [], _, h => by simp at h
  | p :: ps, 0, _ => by simp [flattenPoints]
  | p :: ps, j + 1, h => by
    have h2 : 2 * (j + 1) + 1 = 2 * j + 1 + 1 + 1 := by omega
    rw [h2]
    simp only [flattenPoints, List.getD_cons_succ]
    exact flattenPoints_getD_snd ps j (by simpa using h)

theorem mod_index_even (n j : ℕ) (h : j < n) :
    (2 * j + 2) % (2 * n) = 2 * ((j + 1) % n) := by
  rcases Nat.lt_or_ge (j + 1) n with h1 | h1
  · rw [Nat.mod_eq_of_lt (by omega), Nat.mod_eq_of_lt h1]
    omega
  · have he : j + 1 = n := by omega
    have e2 : 2 * j + 2 = 2 * n := by omega
    rw [e2, Nat.mod_self, he, Nat.mod_self]

theorem mod_index_odd (n j : ℕ) (h : j < n) :
    (2 * j + 3) % (2 * n) = 2 * ((j + 1) % n) + 1 := by
  rcases Nat.lt_or_ge (j + 1) n with h1 | h1
  · rw [Nat.mod_eq_of_lt (by omega), Nat.mod_eq_of_lt h1]
    omega
  · have he : j + 1 = n := by omega
    have e2 : 2 * j + 3 = 2 * n + 1 := by omega
    have e3 : (2 * n + 1) % (2 * n) = 1 := by
      rw [Nat.add_mod_left]
      exact Nat.mod_eq_of_lt (by omega)
    rw [e2, e3, he, Nat.mod_self]

/-- `_polygonArea` applied to the flat array of a vertex list computes half
the absolute value of the shoelace sum over the vertex ring. -/
theorem polygonArea_flatten (vs : List (ℚ × ℚ)) :
    polygonArea (flattenPoints vs) = |shoelaceSum vs / 2| := by
  unfold polygonArea shoelaceSum
  rw [flattenPoints_length]
  have hrange : (2 * vs.length + 1) / 2 = vs.length := by omega
  rw [hrange]
  rcases Nat.eq_zero_or_pos vs.length with h0 | hpos
  · rw [h0]
    simp
  have hsum :
      ((Finset.range vs.length).sum fun j =>
        (flattenPoints vs).getD (2 * j) 0
            * (flattenPoints vs).getD ((2 * j + 3) % (2 * vs.length)) 0
          - (flattenPoints vs).getD ((2 * j + 2) % (2 * vs.length)) 0
            * (flattenPoints vs).getD (2 * j + 1) 0)
      = (Finset.range vs.length).sum fun j =>
          cross (vs.getD j (0, 0)) (vs.getD ((j + 1) % vs.length) (0, 0)) := by
    apply Finset.sum_congr rfl
    intro j hj
    rw [Finset.mem_range] at hj
    have hnext : (j + 1) % vs.length < vs.length := Nat.mod_lt _ hpos
    rw [mod_index_even vs.length j hj, mod_index_odd vs.length j hj,
      flattenPoints_getD_fst vs j hj, flattenPoints_getD_snd vs j hj,
      flattenPoints_getD_fst vs ((j + 1) % vs.length) hnext,
      flattenPoints_getD_snd vs ((j + 1) % vs.length) hnext]
    rfl
  rw [hsum]

theorem sum_range_rotate_one (f : ℕ → ℚ) (n : ℕ) :
    ((Finset.range n).sum fun j => f ((j + 1) % n)) = (Finset.range n).sum f := by
  cases n with
  | zero => simp
  | succ m =>
    rw [Finset.sum_range_succ]
    have h1 : ∀ j ∈ Finset.range m, f ((j + 1) % (m + 1)) = f (j + 1) := by
      intro j hj
      rw [Finset.mem_range] at hj
      rw [Nat.mod_eq_of_lt (by omega)]
    rw [Finset.sum_congr rfl h1, Nat.mod_self, Finset.sum_range_succ']

theorem sum_range_rotate (f : ℕ → ℚ) (n : ℕ) : ∀ c : ℕ,
    ((Finset.range n).sum fun j => f ((j + c) % n)) = (Finset.range n).sum f
  | 0 => by
    apply Finset.sum_congr rfl
    intro j hj
    rw [Finset.mem_range] at hj
    rw [Nat.add_zero, Nat.mod_eq_of_lt hj]
  | c + 1 => by
    have key : ∀ j : ℕ, f ((j + (c + 1)) % n) = f ((((j + 1) % n) + c) % n) := by
      intro j
      rw [Nat.mod_add_mod]
      congr 2
      omega
    calc ((Finset.range n).sum fun j => f ((j + (c + 1)) % n))
        = (Finset.range n).sum fun j => f ((((j + 1) % n) + c) % n) := by
          exact Finset.sum_congr rfl fun j _ => key j
      _ = (Finset.range n).sum fun j => f ((j + c) % n) :=
          sum_range_rotate_one (fun k => f ((k + c) % n)) n
      _ = (Finset.range n).sum f := sum_range_rotate f n c

theorem getD_reverse (l : List (ℚ × ℚ)) (k : ℕ) (h : k < l.length) :
    l.reverse.getD k (0, 0) = l.getD (l.length - 1 - k) (0, 0) := by
  rw [List.getD_eq_getElem _ _ (by simpa using h),
    List.getD_eq_getElem _ _ (by omega)]
  rw [List.getElem_reverse]

theorem cross_antisymm (a b : ℚ × ℚ) : cross a b = -cross b a := by
  unfold cross
  ring

/-- Reversing the vertex ring negates the shoelace sum. -/
theorem shoelaceSum_reverse (vs : List (ℚ × ℚ)) :
    shoelaceSum vs.reverse = -shoelaceSum vs := by
  rcases Nat.eq_zero_or_pos vs.length with h0 | hpos
  · have hnil : vs = [] := List.length_eq_zero.mp h0
    subst hnil
    simp [shoelaceSum]
  unfold shoelaceSum
  rw [List.length_reverse]
  have e1 : ((Finset.range vs.length).sum fun j =>
        cross (vs.reverse.getD j (0, 0)) (vs.reverse.getD ((j + 1) % vs.length) (0, 0)))
      = (Finset.range vs.length).sum fun j =>
          cross (vs.getD (vs.length - 1 - j) (0, 0))
            (vs.getD (vs.length - 1 - ((j + 1) % vs.length)) (0, 0)) := by
    apply Finset.sum_congr rfl
    intro j hj
    rw [Finset.mem_range] at hj
    rw [getD_reverse vs j hj, getD_reverse vs ((j + 1) % vs.length) (Nat.mod_lt _ hpos)]
  have e2 : ((Finset.range vs.length).sum fun j =>
        cross (vs.getD (vs.length - 1 - j) (0, 0))
          (vs.getD (vs.length - 1 - ((j + 1) % vs.length)) (0, 0)))
      = (Finset.range vs.length).sum fun j =>
          cross (vs.getD (vs.length - 1 - (vs.length - 1 - j)) (0, 0))
            (vs.getD (vs.length - 1 - ((vs.length - 1 - j + 1) % vs.length)) (0, 0)) :=
    (Finset.sum_range_reflect (fun j =>
      cross (vs.getD (vs.length - 1 - j) (0, 0))
        (vs.getD (vs.length - 1 - ((j + 1) % vs.length)) (0, 0))) vs.length).symm
  have e3 : ((Finset.range vs.length).sum fun j =>
        cross (vs.getD (vs.length - 1 - (vs.length - 1 - j)) (0, 0))
          (vs.getD (vs.length - 1 - ((vs.length - 1 - j + 1) % vs.length)) (0, 0)))
      = (Finset.range vs.length).sum fun j =>
          -(cross (vs.getD ((j + (vs.length - 1)) % vs.length) (0, 0))
              (vs.getD (((j + (vs.length - 1)) % vs.length + 1) % vs.length) (0, 0))) := by
    apply Finset.sum_congr rfl
    intro j hj
    rw [Finset.mem_range] at hj
    have ha1 : vs.length - 1 - (vs.length - 1 - j) = j := by omega
    have hb2 : ((j + (vs.length - 1)) % vs.length + 1) % vs.length = j := by
      rw [Nat.mod_add_mod]
      have e : j + (vs.length - 1) + 1 = j + vs.length := by omega
      rw [e, Nat.add_mod_right]
      exact Nat.mod_eq_of_lt hj
    have hb1 : (j + (vs.length - 1)) % vs.length
        = vs.length - 1 - ((vs.length - 1 - j + 1) % vs.length) := by
      rcases Nat.eq_zero_or_pos j with rfl | hjpos
      · have l : (0 + (vs.length - 1)) % vs.length = vs.length - 1 := by
          rw [Nat.zero_add]
          exact Nat.mod_eq_of_lt (by omega)
        have r : (vs.length - 1 - 0 + 1) % vs.length = 0 := by
          have e : vs.length - 1 - 0 + 1 = vs.length := by omega
          rw [e, Nat.mod_self]
        rw [l, r]
        omega
      · have l : (j + (vs.length - 1)) % vs.length = j - 1 := by
          have e : j + (vs.length - 1) = (j - 1) + vs.length := by omega
          rw [e, Nat.add_mod_right]
          exact Nat.mod_eq_of_lt (by omega)
        have r : (vs.length - 1 - j + 1) % vs.length = vs.length - j := by
          have e : vs.length - 1 - j + 1 = vs.length - j := by omega
          rw [e]
          exact Nat.mod_eq_of_lt (by omega)
        rw [l, r]
        omega
    rw [ha1, hb2, ← hb1]
    exact cross_antisymm _ _
  have e4 : ((Finset.range vs.length).sum fun j =>
        -(cross (vs.getD ((j + (vs.length - 1)) % vs.length) (0, 0))
            (vs.getD (((j + (vs.length - 1)) % vs.length + 1) % vs.length) (0, 0))))
      = (Finset.range vs.length).sum fun j =>
          -(cross (vs.getD j (0, 0)) (vs.getD ((j + 1) % vs.length) (0, 0))) :=
    sum_range_rotate (fun k =>
      -(cross (vs.getD k (0, 0)) (vs.getD ((k + 1) % vs.length) (0, 0))))
      vs.length (vs.length - 1)
  rw [e1, e2, e3, e4]
  exact Finset.sum_neg_distrib

/-- C4: `_polygonArea` is nonnegative on every flat coordinate array, and on
the flat array of any vertex ring it is invariant under reversing the
winding order of the ring: it is the absolute value of half the shoelace sum
of cross terms `x1·y2 − x2·y1` over consecutive wraparound vertex pairs. -/
theorem polygonArea_nonneg_reverse_invariant (pts : List ℚ) (vs : List (ℚ × ℚ)) :
    0 ≤ polygonArea pts ∧
    polygonArea (flattenPoints vs) = |shoelaceSum vs / 2| ∧
    polygonArea (flattenPoints vs.reverse) = polygonArea (flattenPoints vs) := by
  refine ⟨abs_nonneg _, polygonArea_flatten vs, ?_⟩
  rw [polygonArea_flatten, polygonArea_flatten, shoelaceSum_reverse, neg_div, abs_neg]
